import Mathlib

/-
Verification development for the LWL / fault-data decoder
(src/modules/fault/logfmt.py and src/modules/lwl/lwl.py).

The Python code is shallowly embedded below.  Python's unbounded ints are
Nat (all quantities handled by the decoders are non-negative), bytearrays
are List Nat, exceptions become explicit result constructors, and while
loops become fuel-indexed recursion (with a fuelOut constructor so that a
run that would loop forever is observable as fuel exhaustion at every
fuel).
-/

/-- Result of a circular read (logfmt.py Data.get_data_circ and
lwl.py get_data_bytes): a value plus the advanced index, or the
EOFError / IndexError the Python code can raise. -/
inductive CircRes where
  | ok (v next : Nat)
  | eof
  | index
deriving DecidableEq

/-- Circular index increment, exactly as written in the source:
idx = idx + 1; if idx >= buf_len: idx = 0. -/
def circSucc (L i : Nat) : Nat :=
  if i + 1 ≥ L then 0 else i + 1

/-- n applications of circSucc. -/
def circAdvance (L : Nat) : Nat → Nat → Nat
  | i, 0 => i
  | i, n + 1 => circAdvance L (circSucc L i) n

/-- Number of forward steps from index i until the put index is reached
(0 when i is already the put index).  For i < L and put < L this is the
number of bytes a guarded circular read can still deliver. -/
def circDist (L put i : Nat) : Nat :=
  if i ≤ put then put - i else L + put - i

/-- The r bytes of the data array read circularly from relative index s
(absolute index bufStart + s, wrapping at L), in read order. -/
def circList (data : List Nat) (bufStart L : Nat) : Nat → Nat → List Nat
  | _, 0 => []
  | s, r + 1 => data.getD (bufStart + s) 0 :: circList data bufStart L (circSucc L s) r

/-- Big-endian composition of a byte list: the running value is shifted
left by 8 bits before each new byte is added (the loop body
value = (value << 8) + byte of logfmt.py get_data_circ). -/
def beCompose (l : List Nat) : Nat :=
  l.foldl (fun a b => (a <<< 8) + b) 0

/-- Little-endian composition of a byte list: each byte is weighted by a
growing factor (the loop body d = d + data[idx]*factor; factor *= 256 of
lwl.py get_data_bytes). -/
def leCompose : List Nat → Nat
  | [] => 0
  | b :: r => b + 256 * leCompose r

/-- Metadata of one LWL message (logfmt.py / lwl.py class LwlMsg): the
display format and the list of per-argument byte widths.  The sources
keep the widths as a string of digits; they are modelled as the list of
the digit values. -/
structure Msg where
  fmt : List Char
  argBytes : List Nat
deriving DecidableEq

/-- Derived total argument byte count of a message
(LwlMsg.num_arg_bytes, the sum of the widths). -/
def Msg.numArgBytes (m : Msg) : Nat := m.argBytes.sum

/-- The message catalog (class LwlMsgSet): id-to-metadata entries plus
the running max_msg_len maintained by add_lwl_msg. -/
structure MsgSet where
  msgs : List (Nat × Msg)
  maxMsgLen : Nat
deriving DecidableEq

/-- LwlMsgSet.get_metadata: the descriptor for an id, or none on a miss
(the source returns None on KeyError). -/
def getMetadata (s : MsgSet) (id : Nat) : Option Msg :=
  (s.msgs.find? (fun p => p.1 == id)).map Prod.snd

/-- LwlMsgSet.add_lwl_msg: a duplicate id is rejected (first entry wins,
returning False); otherwise the entry is stored and max_msg_len is
raised to 1 + sum of the argument widths when that is larger. -/
def addLwlMsg (s : MsgSet) (id : Nat) (fmt : List Char) (argBytes : List Nat) :
    MsgSet × Bool :=
  match getMetadata s id with
  | some _ => (s, false)
  | none =>
    let msgLen := 1 + argBytes.sum
    (⟨s.msgs ++ [(id, ⟨fmt, argBytes⟩)], Nat.max s.maxMsgLen msgLen⟩, true)

/-- The empty message set (LwlMsgSet.__init__: no entries,
max_msg_len = 0). -/
def mset0 : MsgSet := ⟨[], 0⟩

/-- Result of a linear read from the data array
(logfmt.py Data.get_data): the value, or the EOFError raised when the
index runs past the end of the array. -/
inductive LinRes where
  | ok (v : Nat)
  | eof
deriving DecidableEq

/-- Loop of Data.get_data: little-endian accumulation by default, or
big-endian accumulation when swab is true. -/
def getDataGo (data : List Nat) (swab : Bool) : Nat → Nat → Nat → Nat → LinRes
  | 0, _, v, _ => .ok v
  | n + 1, i, v, sh =>
    if i ≥ data.length then .eof
    else if swab then getDataGo data swab n (i + 1) ((v <<< 8) + data.getD i 0) sh
    else getDataGo data swab n (i + 1) (v + (data.getD i 0 <<< sh)) (sh + 8)

/-- Data.get_data: read num_bytes bytes starting at idx and compose them
little-endian, or big-endian when swab is true.  In the running program
swab is the module-level g_swab, which is False and — because the only
assignment to it lacks a global declaration — can never become True. -/
def getData (data : List Nat) (swab : Bool) (idx numBytes : Nat) : LinRes :=
  getDataGo data swab numBytes idx 0 0

/-- Loop of Data.get_data_circ: big-endian accumulation over a circular
buffer; a byte whose index equals put_idx raises EOFError unless
first_get is set (the flag is constant through one call). -/
def getDataCircGo (data : List Nat) (bufStart L put : Nat) (first : Bool) :
    Nat → Nat → Nat → CircRes
  | 0, i, v => .ok v i
  | n + 1, i, v =>
    if i = put ∧ first = false then .eof
    else getDataCircGo data bufStart L put first n (circSucc L i)
      ((v <<< 8) + data.getD (bufStart + i) 0)

/-- Data.get_data_circ: entry validation (IndexError when idx or put_idx
is not below buf_len) followed by the big-endian circular read.  Note
that the byte order of this reader is fixed: it never consults the
g_swab byte-order flag. -/
def getDataCirc (data : List Nat) (idx numBytes bufStart L put : Nat)
    (first : Bool) : CircRes :=
  if idx ≥ L then .index
  else if put ≥ L then .index
  else getDataCircGo data bufStart L put first numBytes idx 0

/-- Loop of Data.get_bytes_left_circ: count how many of the requested
bytes are available before the put index stops the walk. -/
def getBytesLeftCircGo (L put : Nat) (first : Bool) : Nat → Nat → Nat → Nat × Nat
  | 0, i, c => (c, i)
  | n + 1, i, c =>
    if i = put ∧ first = false then (c, i)
    else getBytesLeftCircGo L put first n (circSucc L i) (c + 1)

/-- Result of Data.get_bytes_left_circ: (bytes_left, advanced idx), or
the IndexError of its entry validation. -/
inductive BytesLeftRes where
  | ok (bytesLeft next : Nat)
  | index
deriving DecidableEq

/-- Data.get_bytes_left_circ. -/
def getBytesLeftCirc (idx numToCheckFor L put : Nat) (first : Bool) : BytesLeftRes :=
  if idx ≥ L then .index
  else if put ≥ L then .index
  else
    match getBytesLeftCircGo L put first numToCheckFor idx 0 with
    | (c, i) => .ok c i

/-- lwl.py get_data_bytes loop: little-endian accumulation with a
growing factor, wrapping at the end of the data array, with the same
put-index EOF guard (start_idx plays the role of put_idx). -/
def getDataBytesGo (data : List Nat) (startIdx : Nat) (first : Bool) :
    Nat → Nat → Nat → Nat → CircRes
  | 0, i, d, _ => .ok d i
  | n + 1, i, d, factor =>
    if i = startIdx ∧ first = false then .eof
    else getDataBytesGo data startIdx first n (circSucc data.length i)
      (d + data.getD i 0 * factor) (factor * 256)

/-- lwl.py get_data_bytes: IndexError when the entry index is out of
range, otherwise the little-endian circular read. -/
def getDataBytes (data : List Nat) (idx numBytes startIdx : Nat) (first : Bool) :
    CircRes :=
  if idx ≥ data.length then .index
  else getDataBytesGo data startIdx first numBytes idx 0 1

/-- Fuel-indexed body of the invalid-id counting walk that one
resynchronization trial performs, restated on the plain list of bytes the
trial can read (used as the specification side of the trial loop): an
unknown id costs one invalid count and the walk moves one byte; a known
id whose declared argument bytes all fit is skipped over; a known id with
too few remaining bytes stops the walk without counting anything.  The
fuel is always called with the length of the list. -/
def walkGo (set : MsgSet) : Nat → List Nat → Nat
  | _, [] => 0
  | 0, _ :: _ => 0
  | f + 1, id :: rest =>
    match getMetadata set id with
    | none => walkGo set f rest + 1
    | some m =>
      if rest.length < m.numArgBytes then 0
      else walkGo set f (rest.drop m.numArgBytes)

/-- Invalid-id count of the trial walk over a byte list. -/
def walkTrial (set : MsgSet) (l : List Nat) : Nat :=
  walkGo set l.length l

/-- Result of one resynchronization trial of
logfmt.py LwlPrinter.get_optimal_start_idx: the invalid-id count, or the
uncaught IndexError a bad index raises (only EOFError is caught there),
or fuel exhaustion. -/
inductive TrialRes where
  | count (n : Nat)
  | crash
  | fuelOut
deriving DecidableEq

/-- Inner while-loop of logfmt.py LwlPrinter.get_optimal_start_idx: read
an id byte (EOFError ends the trial), count unknown ids, and for a known
id use get_bytes_left_circ to test whether its argument bytes fit —
stopping the trial without counting when they do not. -/
def trialLoopL (data : List Nat) (bufStart L put : Nat) (set : MsgSet) :
    Nat → Nat → Bool → Nat → TrialRes
  | 0, _, _, _ => .fuelOut
  | f + 1, idx, first, ctr =>
    match getDataCirc data idx 1 bufStart L put first with
    | .eof => .count ctr
    | .index => .crash
    | .ok id idx1 =>
      match getMetadata set id with
      | none => trialLoopL data bufStart L put set f idx1 false (ctr + 1)
      | some m =>
        match getBytesLeftCirc idx1 m.numArgBytes L put false with
        | .index => .crash
        | .ok bytesLeft idx2 =>
          if bytesLeft < m.numArgBytes then .count ctr
          else trialLoopL data bufStart L put set f idx2 false ctr

/-- Start index of a trial as the source computes it: put_idx + offset
followed by a single conditional subtraction of buf_len (not a full
reduction modulo buf_len). -/
def codeStart (L put t : Nat) : Nat :=
  if put + t ≥ L then put + t - L else put + t

/-- Overall result of logfmt.py LwlPrinter.get_optimal_start_idx: the
chosen start index (None when no trial beat the initial sentinel), an
uncaught IndexError, or fuel exhaustion. -/
inductive ResyncRes where
  | ok (s : Option Nat)
  | crash
  | fuelOut
deriving DecidableEq

/-- Offset loop of logfmt.py LwlPrinter.get_optimal_start_idx: each
offset's trial count is compared strictly against the best so far
(initialised to buf_len with no index), so ties keep the earlier
offset.  first_get is True only for offset 0. -/
def gosi (data : List Nat) (bufStart L put : Nat) (set : MsgSet) :
    List Nat → Nat → Option Nat → ResyncRes
  | [], _, best => .ok best
  | t :: ts, bestCount, best =>
    match trialLoopL data bufStart L put set (L + 2) (codeStart L put t)
        (decide (t = 0)) 0 with
    | .crash => .crash
    | .fuelOut => .fuelOut
    | .count c =>
      if c < bestCount then gosi data bufStart L put set ts c (some (codeStart L put t))
      else gosi data bufStart L put set ts bestCount best

/-- logfmt.py LwlPrinter.get_optimal_start_idx: trials for every offset
in range(max_msg_len + 1). -/
def getOptimalStartIdxL (data : List Nat) (bufStart L put : Nat) (set : MsgSet) :
    ResyncRes :=
  gosi data bufStart L put set (List.range (set.maxMsgLen + 1)) L none

/-- Inner while-loop of lwl.py get_optimal_start_idx.  Unlike the
logfmt.py version it catches the EOFError of a known id's argument read,
resets the index to just after the id byte, and keeps walking (so the
partial argument span is re-examined as candidate ids). -/
def lwlTrialLoop (data : List Nat) (put : Nat) (set : MsgSet) :
    Nat → Nat → Bool → Nat → TrialRes
  | 0, _, _, _ => .fuelOut
  | f + 1, idx, first, ctr =>
    match getDataBytes data idx 1 put first with
    | .eof => .count ctr
    | .index => .crash
    | .ok id idx1 =>
      match getMetadata set id with
      | none => lwlTrialLoop data put set f idx1 false (ctr + 1)
      | some m =>
        match getDataBytes data idx1 m.numArgBytes put false with
        | .eof => lwlTrialLoop data put set f idx1 false ctr
        | .index => .crash
        | .ok _ idx2 => lwlTrialLoop data put set f idx2 false ctr

/-- Offset loop of lwl.py get_optimal_start_idx: offsets range over
range(max_msg_len) — max_msg_len trials, not max_msg_len + 1 — and
first_get is True for every trial.  The sentinel is len(data). -/
def lwlGosi (data : List Nat) (put : Nat) (set : MsgSet) :
    List Nat → Nat → Option Nat → ResyncRes
  | [], _, best => .ok best
  | t :: ts, bestCount, best =>
    match lwlTrialLoop data put set (data.length + 2)
        (codeStart data.length put t) true 0 with
    | .crash => .crash
    | .fuelOut => .fuelOut
    | .count c =>
      if c < bestCount then
        lwlGosi data put set ts c (some (codeStart data.length put t))
      else lwlGosi data put set ts bestCount best

/-- lwl.py get_optimal_start_idx. -/
def lwlGetOptimalStartIdx (data : List Nat) (put : Nat) (set : MsgSet) :
    ResyncRes :=
  lwlGosi data put set (List.range set.maxMsgLen) data.length none

/-- One emitted line of the streaming decode of
logfmt.py LwlPrinter.pretty_print: a formatted message (modelled as its
id with the decoded argument values), a skipped-data hex annotation, or
an unused-data hex annotation. -/
inductive Line where
  | msg (id : Nat) (args : List Nat)
  | skipped (bytes : List Nat)
  | unused (bytes : List Nat)
deriving DecidableEq

/-- How the streaming decode ends: normally, or with an uncaught
IndexError propagating out of a circular read, or out of fuel. -/
inductive DecodeEnd where
  | finished
  | indexCrash
  | fuelOut
deriving DecidableEq

/-- Result of the inner id-scanning loop of the decode: a known id (with
its position, the position after it, the skipped unknown ids, and its
metadata), or exhaustion.  Each scan iteration of the source begins with
id_idx = idx before the read, so when the read raises EOFError the local
id_idx holds the index of that very read (which equals the put index);
eofDirty records it.  The dirty case (at least one unknown id read this
scan, skipped nonempty) leaves the source's local id not None, so the
unused-data block runs, starting from that recorded index. -/
inductive ScanRes where
  | found (id idIdx next : Nat) (skipped : List Nat) (m : Msg)
  | eofClean
  | eofDirty (idIdx : Nat) (skipped : List Nat)
  | index
  | fuelOut
deriving DecidableEq

/-- Inner while-loop of the decode in logfmt.py LwlPrinter.pretty_print:
try successive bytes as message ids until a known one is found,
accumulating the unknown ones in skipped_data. -/
def scanId (data : List Nat) (bufStart L put : Nat) (set : MsgSet) :
    Nat → Nat → Bool → List Nat → ScanRes
  | 0, _, _, _ => .fuelOut
  | f + 1, idx, first, skipped =>
    match getDataCirc data idx 1 bufStart L put first with
    | .eof => if skipped.isEmpty then .eofClean else .eofDirty idx skipped
    | .index => .index
    | .ok v idx1 =>
      match getMetadata set v with
      | none => scanId data bufStart L put set f idx1 false (skipped ++ [v])
      | some m => .found v idx idx1 skipped m

/-- Result of reading one message's argument list. -/
inductive ArgsRes where
  | argsOk (vals : List Nat) (next : Nat)
  | argsEof
  | argsIndex
deriving DecidableEq

/-- Argument loop of the decode: one circular big-endian read per
declared width, each with first_get already False. -/
def readArgs (data : List Nat) (bufStart L put : Nat) : List Nat → Nat → ArgsRes
  | [], i => .argsOk [] i
  | w :: ws, i =>
    match getDataCirc data i w bufStart L put false with
    | .eof => .argsEof
    | .index => .argsIndex
    | .ok v i1 =>
      match readArgs data bufStart L put ws i1 with
      | .argsOk vs j => .argsOk (v :: vs) j
      | e => e

/-- Unused-data collection at the end of the decode: re-read single
bytes from the interrupted message's id position until EOFError. -/
def collectUnused (data : List Nat) (bufStart L put : Nat) :
    Nat → Nat → List Nat × DecodeEnd
  | 0, _ => ([], .fuelOut)
  | f + 1, idx =>
    match getDataCirc data idx 1 bufStart L put false with
    | .eof => ([], .finished)
    | .index => ([], .indexCrash)
    | .ok v idx1 =>
      match collectUnused data bufStart L put f idx1 with
      | (bs, e) => (v :: bs, e)

/-- Outer decode loop of logfmt.py LwlPrinter.pretty_print.  On clean
exhaustion at an id boundary (no skipped bytes pending) it stops with no
annotation.  On exhaustion while scanning with skipped bytes pending,
the source reaches the unused-data block with id not None and id_idx
equal to the index of the EOF-raising read (the put index, since each
scan iteration re-assigns id_idx = idx just before the read): collecting
from there exhausts at once, so an empty unused-data annotation is
printed and the decode ends normally — the pending skipped bytes are
never printed.  On exhaustion during an argument read it emits the
unused-data annotation from the id byte onward. -/
def decodeGo (data : List Nat) (bufStart L put : Nat) (set : MsgSet) :
    Nat → Nat → Bool → List Line × DecodeEnd
  | 0, _, _ => ([], .fuelOut)
  | f + 1, idx, first =>
    match scanId data bufStart L put set (f + 1) idx first [] with
    | .fuelOut => ([], .fuelOut)
    | .index => ([], .indexCrash)
    | .eofClean => ([], .finished)
    | .eofDirty idIdx _ =>
      match collectUnused data bufStart L put (2 * L + 4) idIdx with
      | (bs, e) => ([.unused bs], e)
    | .found id idIdx idx1 skipped m =>
      let pre : List Line := if skipped.isEmpty then [] else [.skipped skipped]
      match readArgs data bufStart L put m.argBytes idx1 with
      | .argsIndex => (pre, .indexCrash)
      | .argsEof =>
        match collectUnused data bufStart L put (2 * L + 4) idIdx with
        | (bs, e) => (pre ++ [.unused bs], e)
      | .argsOk vals idx2 =>
        match decodeGo data bufStart L put set f idx2 false with
        | (ls, e) => (pre ++ Line.msg id vals :: ls, e)

/-- Entry into the decode loop from a chosen start index, with first_get
initially True. -/
def decodeFromStart (data : List Nat) (bufStart L put : Nat) (set : MsgSet)
    (start : Nat) : List Line × DecodeEnd :=
  decodeGo data bufStart L put set (2 * L + 4) start true

/-- One fault-record field (logfmt.py class FaultField): name, byte
offset into the section, width in bytes. -/
structure FaultField where
  name : List Char
  offset : Nat
  numBytes : Nat
deriving DecidableEq

/-- Field suppression of FaultData.pretty_print: names starting with
pad, and the reserved names magic and num_section_bytes, are skipped. -/
def faultSuppressed (n : List Char) : Bool :=
  List.isPrefixOf ['p', 'a', 'd'] n
    || n == ['m', 'a', 'g', 'i', 'c']
    || n == ['n', 'u', 'm', '_', 's', 'e', 'c', 't', 'i', 'o', 'n', '_',
             'b', 'y', 't', 'e', 's']

/-- Result of FaultData.pretty_print: the printed (name, value) pairs,
or the uncaught EOFError of a field read past the data array. -/
inductive FaultRes where
  | ok (vals : List (List Char × Nat))
  | eof
deriving DecidableEq

/-- FaultData.pretty_print: fixed fields at fixed offsets, read with the
current byte order (g_swab, permanently False). -/
def faultPretty (data : List Nat) (fields : List FaultField) (off : Nat) : FaultRes :=
  match fields with
  | [] => .ok []
  | f :: rest =>
    if faultSuppressed f.name then faultPretty data rest off
    else
      match getData data false (off + f.offset) f.numBytes with
      | .eof => .eof
      | .ok v =>
        match faultPretty data rest off with
        | .eof => .eof
        | .ok vs => .ok ((f.name, v) :: vs)

/-- How one LWL section's handling by LwlPrinter.pretty_print ends. -/
inductive LwlStatus where
  | insufficientSize
  | invalidBufLen
  | invalidPutIdx
  | headerEofCrash
  | resyncCrash
  | resyncNoneCrash
  | resyncFuelOut
  | ended (e : DecodeEnd)
deriving DecidableEq

/-- logfmt.py LwlPrinter.pretty_print: reject sections shorter than 20
bytes before touching the header; then read buf_len and put_idx at
offsets 8 and 12, validate buf_len + 16 == section_len and
put_idx < buf_len, resynchronize, and stream-decode.  A None start index
from get_optimal_start_idx is fed straight into get_data_circ, which
raises a TypeError (modelled as resyncNoneCrash). -/
def lwlPretty (set : MsgSet) (data : List Nat) (off slen : Nat) :
    List Line × LwlStatus :=
  if slen < 20 then ([], .insufficientSize)
  else
    match getData data false (off + 8) 4, getData data false (off + 12) 4 with
    | .eof, _ => ([], .headerEofCrash)
    | _, .eof => ([], .headerEofCrash)
    | .ok bufLen, .ok put =>
      if bufLen + 16 ≠ slen then ([], .invalidBufLen)
      else if put ≥ bufLen then ([], .invalidPutIdx)
      else
        match getOptimalStartIdxL data (off + 16) bufLen put set with
        | .crash => ([], .resyncCrash)
        | .fuelOut => ([], .resyncFuelOut)
        | .ok none => ([], .resyncNoneCrash)
        | .ok (some s) =>
          match decodeFromStart data (off + 16) bufLen put set s with
          | (ls, e) => (ls, .ended e)

/-- True when handling the LWL section ended in an uncaught Python
exception, which would abort the whole run. -/
def lwlStatusCrashes : LwlStatus → Bool
  | .headerEofCrash => true
  | .resyncCrash => true
  | .resyncNoneCrash => true
  | .ended .indexCrash => true
  | _ => false

/-- True when handling ran out of modelling fuel (no Python analogue;
kept separate so it is never mistaken for a real outcome). -/
def lwlStatusFuelOut : LwlStatus → Bool
  | .resyncFuelOut => true
  | .ended .fuelOut => true
  | _ => false

/-- The three known section magics (module constants MOD_MAGIC_FAULT,
MOD_MAGIC_LWL, MOD_MAGIC_TRAILER) mapped to the section type ids of
Data.magic_to_fault_type. -/
def magicToType (m : Nat) : Option Nat :=
  if m = 0xdead0001 then some 0
  else if m = 0xf00d0001 then some 1
  else if m = 0xc0da0001 then some 2
  else none

/-- One section event emitted while framing the blob. -/
inductive Event where
  | fault (idx slen : Nat) (r : FaultRes)
  | lwl (idx slen : Nat) (r : List Line × LwlStatus)
  | trailer (idx slen : Nat)
deriving DecidableEq

/-- How Data.process_data ends.  ok carries the final offset;
unboundLocal is the UnboundLocalError raised at the statement
g_swab = not g_swab, which assigns the module global without a global
declaration and therefore reads an unbound local — the byte-order flip
documented in the comments can never happen and aborts the run instead;
crashed covers uncaught exceptions propagating out of a section
decoder. -/
inductive Outcome where
  | ok (finalIdx : Nat)
  | insufficientHeader (idx : Nat)
  | truncated (idx : Nat)
  | unboundLocal (idx : Nat)
  | crashed (idx : Nat)
  | fuelOut (idx : Nat)
deriving DecidableEq

/-- logfmt.py Data.process_data: walk the blob section by section.  Per
iteration: require 8 header bytes; read the magic with the current byte
order (always little-endian, see Outcome.unboundLocal); an unrecognized
magic reaches g_swab = not g_swab and dies with UnboundLocalError; read
total_len; require idx + total_len <= blob length (there is no
total_len >= 8 check); dispatch to the section decoder; advance by
total_len. -/
def processDataFuel (data : List Nat) (fields : List FaultField) (set : MsgSet) :
    Nat → Nat → List Event × Outcome
  | 0, idx => ([], .fuelOut idx)
  | f + 1, idx =>
    if idx ≥ data.length then ([], .ok idx)
    else if idx + 8 > data.length then ([], .insufficientHeader idx)
    else
      match getData data false idx 4 with
      | .eof => ([], .crashed idx)
      | .ok magic =>
        match magicToType magic with
        | none => ([], .unboundLocal idx)
        | some ty =>
          match getData data false (idx + 4) 4 with
          | .eof => ([], .crashed idx)
          | .ok slen =>
            if idx + slen > data.length then ([], .truncated idx)
            else
              if ty = 0 then
                match faultPretty data fields idx with
                | .eof => ([Event.fault idx slen .eof], .crashed idx)
                | .ok vs =>
                  match processDataFuel data fields set f (idx + slen) with
                  | (evs, out) => (Event.fault idx slen (.ok vs) :: evs, out)
              else if ty = 1 then
                match lwlPretty set data idx slen with
                | r =>
                  if lwlStatusCrashes r.2 then ([Event.lwl idx slen r], .crashed idx)
                  else if lwlStatusFuelOut r.2 then
                    ([Event.lwl idx slen r], .fuelOut idx)
                  else
                    match processDataFuel data fields set f (idx + slen) with
                    | (evs, out) => (Event.lwl idx slen r :: evs, out)
              else
                match processDataFuel data fields set f (idx + slen) with
                | (evs, out) => (Event.trailer idx slen :: evs, out)

/-- get_num_fmt_params (lwl.py, and the identical never-called method of
logfmt.py SourceParser): count percent conversion slots in a format
string, with %% escaping a literal percent. -/
def getNumFmtParamsGo : Bool → List Char → Nat
  | _, [] => 0
  | false, c :: r => getNumFmtParamsGo (c == '%') r
  | true, c :: r => if c == '%' then getNumFmtParamsGo false r
                    else getNumFmtParamsGo false r + 1

/-- Number of conversion slots of a format string. -/
def getNumFmtParams (fmt : List Char) : Nat :=
  getNumFmtParamsGo false fmt

/-- The statement-acceptance step of lwl.py parse_source_file: when the
slot count of the format differs from the length of the arg-widths
string the statement is NOT added — an error is printed, error_count is
incremented and parsing moves on; otherwise add_lwl_msg runs (a
duplicate id also costs an error).  Returns the new set and the number
of errors charged. -/
def lwlHandleStatement (s : MsgSet) (id : Nat) (fmt : List Char)
    (argBytes : List Nat) : MsgSet × Nat :=
  if getNumFmtParams fmt ≠ argBytes.length then (s, 1)
  else
    match addLwlMsg s id fmt argBytes with
    | (s1, added) => (s1, if added then 0 else 1)

/-- The statement-acceptance step of logfmt.py
SourceParser.parse_source_file: no slot-count check exists there at all
(its get_num_fmt_params is never called); the only consistency check
compares the declared num-arg-bytes parameter with the sum of the parsed
widths, prints an error on mismatch without incrementing error_count,
and the entry is added regardless.  Returns the new set, whether the
mismatch warning fired, and the errors charged (only a duplicate id). -/
def logfmtHandleStatement (s : MsgSet) (id : Nat) (fmt : List Char)
    (argBytes : List Nat) (declaredNumArgBytes : Nat) : MsgSet × Bool × Nat :=
  let warned := argBytes.sum ≠ declaredNumArgBytes
  match addLwlMsg s id fmt argBytes with
  | (s1, added) => (s1, warned, if added then 0 else 1)

/-- Specification-side description of one resynchronization trial's
readable window in the fault tool: for offset 0 the whole buffer
starting at the put index (the first read is exempt from the put-index
guard); for a later offset the bytes from (put + t) mod buf_len forward
until the put index stops the walk. -/
def trialSpecWindow (data : List Nat) (bufStart L put t : Nat) : List Nat :=
  if t = 0 then circList data bufStart L put L
  else circList data bufStart L ((put + t) % L) (circDist L put ((put + t) % L))

/-- Specification-side invalid-id count of the trial at offset t. -/
def trialSpecCount (data : List Nat) (bufStart L put : Nat) (set : MsgSet)
    (t : Nat) : Nat :=
  walkTrial set (trialSpecWindow data bufStart L put t)

/-- Fold of Nat.min over a list with an initial value. -/
def minOf (l : List Nat) (d : Nat) : Nat :=
  l.foldr Nat.min d

/-- Modelled from the spec: the resynchronization selection rule as the
specification states it — take the minimum invalid-id count across all
W + 1 trial offsets in [0, W], resolve ties to the smallest offset
tested, and return that trial's start index (put + t) mod buf_len. -/
def resyncSpecChoice (data : List Nat) (bufStart L put : Nat) (set : MsgSet) :
    Option Nat :=
  let ts := List.range (set.maxMsgLen + 1)
  let cnt := fun t => trialSpecCount data bufStart L put set t
  let m := minOf (ts.map cnt) (cnt 0)
  match ts.find? (fun t => cnt t == m) with
  | some t => some ((put + t) % L)
  | none => none

/-- Pure selection fold mirroring the best-so-far update of the offset
loop: strict improvement replaces the best, ties keep the earlier
entry. -/
def selFold : List (Nat × Nat) → Nat → Option Nat → Option Nat
  | [], _, b => b
  | (s, c) :: ps, bestCount, b =>
    if c < bestCount then selFold ps c (some s) else selFold ps bestCount b

/-- Blob whose first section magic is stored big-endian: the
little-endian read yields an unrecognized value, which sends
process_data into the byte-order flip. -/
def c1blob : List Nat := [0xde, 0xad, 0x00, 0x01, 0x08, 0x00, 0x00, 0x00]

/-- Blob holding one recognized trailer section whose total_len is 4 —
smaller than the 8-byte header it must at least cover. -/
def c4blob : List Nat := [0x01, 0x00, 0xda, 0xc0, 0x04, 0x00, 0x00, 0x00]

/-- Blob holding one recognized trailer section whose total_len is 0:
the framing offset never advances. -/
def c5loopBlob : List Nat := [0x01, 0x00, 0xda, 0xc0, 0x00, 0x00, 0x00, 0x00]

/-- Well-formed blob holding exactly one trailer section of total_len 8. -/
def c5okBlob : List Nat := [0x01, 0x00, 0xda, 0xc0, 0x08, 0x00, 0x00, 0x00]

/-- The framing loop never terminates on c5loopBlob: every fuel bound is
exhausted at offset 0. -/
def processDataLoopsForever : Prop :=
  ∀ f, (processDataFuel c5loopBlob [] mset0 f 0).2 = Outcome.fuelOut 0

/-- Catalog with the single message id 1 taking one 1-byte argument
(max_msg_len 2), built through add_lwl_msg. -/
def catC3 : MsgSet := (addLwlMsg mset0 1 [] [1]).1

/-- Catalog with the single message id 1 taking one 4-byte argument
(max_msg_len 5). -/
def catC6 : MsgSet := (addLwlMsg mset0 1 [] [4]).1

/-- Catalog with the single message id 5 taking one 4-byte argument
(max_msg_len 5). -/
def catC7 : MsgSet := (addLwlMsg mset0 5 [] [4]).1

/-- A 19-byte LWL section (magic, total_len 19, buf_len 3, put_idx 0,
3 buffer bytes) followed by an 8-byte trailer section.  The LWL header
fields are self-consistent (3 + 16 = 19 and 0 < 3), yet the section is
shorter than 20 bytes. -/
def c10blob : List Nat :=
  [0x01, 0x00, 0x0d, 0xf0, 0x13, 0x00, 0x00, 0x00,
   0x03, 0x00, 0x00, 0x00, 0x00, 0x00, 0x00, 0x00, 0x07, 0x07, 0x07,
   0x01, 0x00, 0xda, 0xc0, 0x08, 0x00, 0x00, 0x00]

lemma circSucc_lt {L : Nat} (hL : 0 < L) (i : Nat) : circSucc L i < L := by
  unfold circSucc
  split <;> omega

lemma circDist_lt {L put i : Nat} (hput : put < L) (hi : i < L) :
    circDist L put i < L := by
  unfold circDist
  split <;> omega

lemma circDist_eq_zero_iff {L put i : Nat} (hi : i < L) :
    circDist L put i = 0 ↔ i = put := by
  unfold circDist
  split <;> omega

lemma circDist_succ {L put i : Nat} (hput : put < L) (hi : i < L) (hne : i ≠ put) :
    circDist L put (circSucc L i) = circDist L put i - 1 := by
  simp only [circDist, circSucc]
  split_ifs <;> omega

lemma circDist_self {L put : Nat} : circDist L put put = 0 := by
  unfold circDist
  split <;> omega

lemma circAdvance_succ {L i n : Nat} :
    circAdvance L i (n + 1) = circAdvance L (circSucc L i) n := rfl

lemma circAdvance_dist {L put : Nat} (hput : put < L) :
    ∀ n i, i < L → n ≤ circDist L put i →
      circAdvance L i n < L ∧
        circDist L put (circAdvance L i n) = circDist L put i - n := by
  intro n
  induction n with
  | zero => intro i hi _; exact ⟨hi, rfl⟩
  | succ n ih =>
    intro i hi hle
    have hne : i ≠ put := by
      intro h
      rw [h, circDist_self] at hle
      omega
    have hsucc := circSucc_lt (L := L) (by omega) i
    have hd := circDist_succ hput hi hne
    have := ih (circSucc L i) hsucc (by omega)
    rw [circAdvance_succ]
    refine ⟨this.1, ?_⟩
    rw [this.2, hd]
    omega

lemma circList_length (data : List Nat) (bufStart L : Nat) :
    ∀ r s, (circList data bufStart L s r).length = r := by
  intro r
  induction r with
  | zero => intro s; rfl
  | succ r ih => intro s; simp [circList, ih]

lemma circList_drop (data : List Nat) (bufStart L : Nat) :
    ∀ n s r, (circList data bufStart L s r).drop n =
      circList data bufStart L (circAdvance L s n) (r - n) := by
  intro n
  induction n with
  | zero => intro s r; rfl
  | succ n ih =>
    intro s r
    cases r with
    | zero => simp [circList]
    | succ r =>
      show (circList data bufStart L s (r + 1)).drop (n + 1) = _
      rw [circList]
      simp only [List.drop_succ_cons]
      rw [ih, circAdvance_succ, Nat.succ_sub_succ]

lemma getDataCircGo_true (data : List Nat) (bufStart L put : Nat) :
    ∀ n i v, getDataCircGo data bufStart L put true n i v =
      .ok ((circList data bufStart L i n).foldl (fun a b => (a <<< 8) + b) v)
        (circAdvance L i n) := by
  intro n
  induction n with
  | zero => intro i v; rfl
  | succ n ih =>
    intro i v
    rw [getDataCircGo, circList]
    simp only [List.foldl_cons]
    rw [if_neg (by simp), ih]
    rfl

lemma getDataCircGo_false (data : List Nat) (bufStart L put : Nat)
    (hput : put < L) :
    ∀ n i v, i < L → n ≤ circDist L put i →
      getDataCircGo data bufStart L put false n i v =
        .ok ((circList data bufStart L i n).foldl (fun a b => (a <<< 8) + b) v)
          (circAdvance L i n) := by
  intro n
  induction n with
  | zero => intro i v _ _; rfl
  | succ n ih =>
    intro i v hi hle
    have hne : i ≠ put := by
      intro h
      rw [h, circDist_self] at hle
      omega
    rw [getDataCircGo, circList]
    simp only [List.foldl_cons]
    rw [if_neg (by simp [hne])]
    rw [ih (circSucc L i) ((v <<< 8) + data.getD (bufStart + i) 0)
      (circSucc_lt (by omega) i) (by rw [circDist_succ hput hi hne]; omega)]
    rw [circAdvance_succ]

lemma getBytesLeftCircGo_false (L put : Nat) (hput : put < L) :
    ∀ n i c, i < L →
      getBytesLeftCircGo L put false n i c =
        (c + Nat.min n (circDist L put i),
          circAdvance L i (Nat.min n (circDist L put i))) := by
  intro n
  induction n with
  | zero => intro i c _; simp [getBytesLeftCircGo, circAdvance]
  | succ n ih =>
    intro i c hi
    by_cases hne : i = put
    · subst hne
      rw [getBytesLeftCircGo, if_pos (by simp)]
      simp [circDist_self, circAdvance]
    · rw [getBytesLeftCircGo, if_neg (by simp [hne])]
      rw [ih (circSucc L i) (c + 1) (circSucc_lt (by omega) i)]
      have hd := circDist_succ hput hi hne
      have hpos : 0 < circDist L put i := by
        rcases Nat.eq_zero_or_pos (circDist L put i) with h | h
        · exact absurd ((circDist_eq_zero_iff hi).mp h) hne
        · exact h
      have hmin : Nat.min (n + 1) (circDist L put i) =
          Nat.min n (circDist L put (circSucc L i)) + 1 := by
        rw [hd]
        simp only [Nat.min_def]
        split_ifs <;> omega
      rw [hmin, circAdvance_succ]
      congr 1
      omega

lemma getDataBytesGo_true (data : List Nat) (s : Nat) :
    ∀ n i d factor, getDataBytesGo data s true n i d factor =
      .ok (d + factor * leCompose (circList data 0 data.length i n))
        (circAdvance data.length i n) := by
  intro n
  induction n with
  | zero => intro i d factor; simp [getDataBytesGo, leCompose, circList, circAdvance]
  | succ n ih =>
    intro i d factor
    rw [getDataBytesGo, if_neg (by simp), ih, circList, leCompose, circAdvance_succ]
    rw [Nat.zero_add]
    congr 1
    ring

lemma getDataBytesGo_false (data : List Nat) (s : Nat) (hs : s < data.length) :
    ∀ n i d factor, i < data.length → n ≤ circDist data.length s i →
      getDataBytesGo data s false n i d factor =
        .ok (d + factor * leCompose (circList data 0 data.length i n))
          (circAdvance data.length i n) := by
  intro n
  induction n with
  | zero => intro i d factor _ _; simp [getDataBytesGo, leCompose, circList, circAdvance]
  | succ n ih =>
    intro i d factor hi hle
    have hne : i ≠ s := by
      intro h
      rw [h, circDist_self] at hle
      omega
    rw [getDataBytesGo, if_neg (by simp [hne])]
    rw [ih (circSucc data.length i) (d + data.getD i 0 * factor) (factor * 256)
      (circSucc_lt (by omega) i) (by rw [circDist_succ hs hi hne]; omega)]
    rw [circList, leCompose, circAdvance_succ, Nat.zero_add]
    congr 1
    ring

lemma walkGo_congr (set : MsgSet) :
    ∀ f g l, l.length ≤ f → l.length ≤ g → walkGo set f l = walkGo set g l := by
  intro f
  induction f with
  | zero =>
    intro g l hf _
    have : l = [] := List.eq_nil_of_length_eq_zero (by omega)
    subst this
    cases g <;> rfl
  | succ f ih =>
    intro g l hf hg
    cases l with
    | nil => cases g <;> rfl
    | cons id rest =>
      cases g with
      | zero => simp at hg
      | succ g =>
        simp only [List.length_cons] at hf hg
        rw [walkGo, walkGo]
        cases hmeta : getMetadata set id with
        | none =>
          simp only [hmeta]
          rw [ih g rest (by omega) (by omega)]
        | some m =>
          simp only [hmeta]
          split
          · rfl
          · rw [ih g (rest.drop m.numArgBytes)
              (by simp only [List.length_drop]; omega)
              (by simp only [List.length_drop]; omega)]

lemma walkTrial_cons_none (set : MsgSet) (id : Nat) (rest : List Nat)
    (h : getMetadata set id = none) :
    walkTrial set (id :: rest) = walkTrial set rest + 1 := by
  unfold walkTrial
  simp only [List.length_cons, walkGo, h]

lemma walkTrial_cons_some (set : MsgSet) (id : Nat) (rest : List Nat) (m : Msg)
    (h : getMetadata set id = some m) :
    walkTrial set (id :: rest) =
      if rest.length < m.numArgBytes then 0
      else walkTrial set (rest.drop m.numArgBytes) := by
  unfold walkTrial
  simp only [List.length_cons, walkGo, h]
  split
  · rfl
  · exact walkGo_congr set rest.length (rest.drop m.numArgBytes).length
      (rest.drop m.numArgBytes) (by simp only [List.length_drop]; omega) (le_refl _)

lemma walkGo_le (set : MsgSet) :
    ∀ f l, walkGo set f l ≤ l.length := by
  intro f
  induction f with
  | zero => intro l; cases l <;> simp [walkGo]
  | succ f ih =>
    intro l
    cases l with
    | nil => simp [walkGo]
    | cons id rest =>
      rw [walkGo]
      cases hmeta : getMetadata set id with
      | none =>
        simp only [List.length_cons]
        have := ih rest
        omega
      | some m =>
        simp only [List.length_cons]
        split
        · omega
        · have := ih (rest.drop m.numArgBytes)
          simp [List.length_drop] at this
          omega

lemma walkTrial_le (set : MsgSet) (l : List Nat) : walkTrial set l ≤ l.length :=
  walkGo_le set l.length l

lemma getDataCirc_one (data : List Nat) (bufStart L put idx : Nat) (first : Bool)
    (hput : put < L) (hi : idx < L) (hok : first = true ∨ idx ≠ put) :
    getDataCirc data idx 1 bufStart L put first =
      .ok (data.getD (bufStart + idx) 0) (circSucc L idx) := by
  unfold getDataCirc
  rw [if_neg (by omega), if_neg (by omega), getDataCircGo]
  rw [if_neg (by rcases hok with h | h <;> simp [h])]
  simp [getDataCircGo, Nat.zero_shiftLeft]

lemma getDataCirc_one_eof (data : List Nat) (bufStart L put : Nat)
    (hput : put < L) :
    getDataCirc data put 1 bufStart L put false = .eof := by
  unfold getDataCirc getDataCircGo
  rw [if_neg (by omega), if_neg (by omega), if_pos ⟨rfl, rfl⟩]

/-- C1: the byte-order flip never happens; the code crashes instead.
On a blob whose first section magic is stored big-endian, the
little-endian read of the magic is unrecognized and Data.process_data
reaches the statement g_swab = not g_swab, which — lacking a global
declaration — raises UnboundLocalError and aborts the run with no
section decoded.  No numeric read of the run ever uses a flipped byte
order, because module-level g_swab stays False forever. -/
theorem c1_byte_order_flip_crashes :
    processDataFuel c1blob [] mset0 2 0 = ([], Outcome.unboundLocal 0) := by
  decide

/-- C2 counterexample: the circular multi-byte read of the standalone
lwl tool (lwl.py get_data_bytes) composes the two bytes 01 02 as
513 = 0x0201 — little-endian — not as the big-endian 258 = 0x0102 the
claim asserts for every circular read. -/
theorem c2_counterexample_lwl_little_endian :
    getDataBytes [1, 2] 0 2 0 true = CircRes.ok 513 0 ∧
      beCompose [1, 2] = 258 ∧ (513 : Nat) ≠ 258 := by
  decide

/-- C2 (amended): the fault tool's circular read Data.get_data_circ
composes its bytes big-endian for every width and every start position
(it takes no byte-order input at all, so the blob's detected order
cannot influence it), while the standalone lwl tool's get_data_bytes
composes the same window little-endian. -/
theorem c2_circ_read_byte_order (data : List Nat) (bufStart L put i n : Nat)
    (first : Bool) (d2 : List Nat) (s i2 n2 : Nat) (f2 : Bool)
    (h1 : i < L) (h2 : put < L) (h3 : first = true ∨ n ≤ circDist L put i)
    (h4 : i2 < d2.length) (h5 : s < d2.length)
    (h6 : f2 = true ∨ n2 ≤ circDist d2.length s i2) :
    getDataCirc data i n bufStart L put first =
      .ok (beCompose (circList data bufStart L i n)) (circAdvance L i n) ∧
    getDataBytes d2 i2 n2 s f2 =
      .ok (leCompose (circList d2 0 d2.length i2 n2)) (circAdvance d2.length i2 n2) := by
  constructor
  · unfold getDataCirc
    rw [if_neg (by omega), if_neg (by omega)]
    rcases h3 with h | h
    · subst h
      exact getDataCircGo_true data bufStart L put n i 0
    · cases first with
      | true => exact getDataCircGo_true data bufStart L put n i 0
      | false => exact getDataCircGo_false data bufStart L put h2 n i 0 h1 h
  · unfold getDataBytes
    rw [if_neg (by omega)]
    rcases h6 with h | h
    · subst h
      rw [getDataBytesGo_true d2 s n2 i2 0 1]
      simp
    · cases f2 with
      | true =>
        rw [getDataBytesGo_true d2 s n2 i2 0 1]
        simp
      | false =>
        rw [getDataBytesGo_false d2 s h5 n2 i2 0 1 h4 h]
        simp

/-- Witness for c2_circ_read_byte_order at the window 02 03 of the
buffer 01 02 03 04: the fault tool's read yields the big-endian
0x0203 = 515, the lwl tool's read yields the little-endian
0x0302 = 770. -/
theorem c2_circ_read_byte_order_witness :
    getDataCirc [1, 2, 3, 4] 1 2 0 4 0 false = CircRes.ok 515 3 ∧
      getDataBytes [1, 2, 3, 4] 1 2 0 true = CircRes.ok 770 3 := by
  have h := c2_circ_read_byte_order [1, 2, 3, 4] 0 4 0 1 2 false [1, 2, 3, 4] 0 1 2
    true (by decide) (by decide) (Or.inr (by decide)) (by decide) (by decide)
    (Or.inl rfl)
  refine ⟨?_, ?_⟩
  · rw [h.1]; decide
  · rw [h.2]; decide

/-- C6 counterexample: in the fault tool's resynchronization only the
offset-0 trial is run with first_get = True.  With buf_len = 4,
put_idx = 0 and a catalog whose max_msg_len is 5, the offset-4 trial
starts exactly at the put index: run as the code runs it (first_get
False) its very first read signals exhaustion and the trial counts 0
invalid ids having read nothing, whereas under the claimed every-trial
exemption (first_get True) the same trial would read all four unknown
bytes and count 4.  The zero count of the degenerate trial even wins
the selection: the chosen start index is the put index itself. -/
theorem c6_counterexample_offset_trial_first_read :
    trialLoopL [2, 2, 2, 2] 0 4 0 catC6 6 0 false 0 = TrialRes.count 0 ∧
      trialLoopL [2, 2, 2, 2] 0 4 0 catC6 6 0 true 0 = TrialRes.count 4 ∧
      getOptimalStartIdxL [2, 2, 2, 2] 0 4 0 catC6 = ResyncRes.ok (some 0) := by
  decide

/-- C6 (amended): the first-read exemption of the put-index guard holds
only for the trial that starts at the put index with first_get = True —
in the fault tool that is solely the offset-0 trial.  A trial entered
with first_get = False whose start index equals the put index stops at
once with its counter unchanged, while a first read with
first_get = True at the put index succeeds and returns the byte
there. -/
theorem c6_first_read_rule (data : List Nat) (bufStart L put fuel ctr : Nat)
    (set : MsgSet) (h : put < L) :
    trialLoopL data bufStart L put set (fuel + 1) put false ctr =
      TrialRes.count ctr ∧
    getDataCirc data put 1 bufStart L put true =
      CircRes.ok (data.getD (bufStart + put) 0) (circSucc L put) := by
  constructor
  · rw [trialLoopL, getDataCirc_one_eof data bufStart L put h]
  · exact getDataCirc_one data bufStart L put put true h h (Or.inl rfl)

/-- Witness for c6_first_read_rule on a 4-byte buffer with put index
2. -/
theorem c6_first_read_rule_witness :
    (2 : Nat) < 4 ∧
      (trialLoopL [9, 9, 9, 9] 0 4 2 catC6 5 2 false 7 = TrialRes.count 7 ∧
        getDataCirc [9, 9, 9, 9] 2 1 0 4 2 true = CircRes.ok 9 3) := by
  refine ⟨by decide, ?_⟩
  have h := c6_first_read_rule [9, 9, 9, 9] 0 4 2 4 7 catC6 (by decide)
  refine ⟨h.1, ?_⟩
  rw [h.2]
  decide

/-- C7 counterexample: the standalone lwl tool does NOT stop a trial
when a known id's argument bytes do not fit before exhaustion — it
resets to just after the id byte and keeps scanning, so the partial
argument span IS counted.  Catalog: id 5 with one 4-byte argument;
buffer 05 09 09 09 with put_idx 0.  The claim requires the trial to
stop at the insufficient-argument point with 0 invalid ids; lwl.py
counts the three argument bytes 09 09 09 as invalid ids instead. -/
theorem c7_counterexample_lwl_partial_span :
    lwlTrialLoop [5, 9, 9, 9] 0 catC7 8 0 true 0 = TrialRes.count 3 ∧
      (3 : Nat) ≠ 0 := by
  decide

/-- C7 (amended): in the fault tool's resynchronization the claim
holds: when the id byte at the current index is known but fewer bytes
remain before exhaustion than its declared argument-byte count, the
trial stops immediately and the invalid-id counter is returned
unchanged (neither the id nor its partial argument span is counted).
The standalone lwl tool instead re-scans the partial span as ids. -/
theorem c7_trial_stop_uncounted (data : List Nat)
    (bufStart L put fuel idx ctr : Nat) (first : Bool) (set : MsgSet) (m : Msg)
    (hput : put < L) (hi : idx < L) (hfirst : first = true ∨ idx ≠ put)
    (hm : getMetadata set (data.getD (bufStart + idx) 0) = some m)
    (hins : circDist L put (circSucc L idx) < m.numArgBytes) :
    trialLoopL data bufStart L put set (fuel + 1) idx first ctr =
      TrialRes.count ctr := by
  have hread := getDataCirc_one data bufStart L put idx first hput hi hfirst
  have hsucc := circSucc_lt (L := L) (by omega) idx
  have hbl : getBytesLeftCirc (circSucc L idx) m.numArgBytes L put false =
      .ok (Nat.min m.numArgBytes (circDist L put (circSucc L idx)))
        (circAdvance L (circSucc L idx)
          (Nat.min m.numArgBytes (circDist L put (circSucc L idx)))) := by
    unfold getBytesLeftCirc
    rw [if_neg (by omega), if_neg (by omega)]
    rw [getBytesLeftCircGo_false L put hput m.numArgBytes (circSucc L idx) 0 hsucc]
    simp
  rw [trialLoopL]
  simp only [hread, hm, hbl]
  rw [if_pos (Nat.lt_of_le_of_lt (Nat.min_le_right _ _) hins)]

/-- Witness for c7_trial_stop_uncounted: buffer 05 09 09 09, put 0,
catalog id 5 with a 4-byte argument; only 3 bytes remain after the id,
so the trial ends with count 0. -/
theorem c7_trial_stop_uncounted_witness :
    ((0 : Nat) < 4 ∧ circDist 4 0 (circSucc 4 0) < (4 : Nat)) ∧
      trialLoopL [5, 9, 9, 9] 0 4 0 catC7 6 0 true 0 = TrialRes.count 0 := by
  refine ⟨by decide, ?_⟩
  exact c7_trial_stop_uncounted [5, 9, 9, 9] 0 4 0 5 0 0 true catC7 ⟨[], [4]⟩
    (by decide) (by decide) (Or.inl rfl) (by decide) (by decide)

/-- C4 counterexample: a recognized trailer section declaring
total_len = 4 (smaller than its own 8-byte header) is NOT rejected: the
framer dispatches it (the end-of-data marker is emitted), advances by 4,
and only then fails on the next header — there is no total_len >= 8
validation and no truncation error for this section. -/
theorem c4_counterexample_short_section_dispatched :
    processDataFuel c4blob [] mset0 10 0 =
      ([Event.trailer 0 4], Outcome.insufficientHeader 4) := by
  decide

/-- C4 (amended): the framer validates only that 8 header bytes are
available and that offset + total_len does not exceed the blob length;
on the latter violation it reports the truncation error and stops with
nothing further emitted for this section.  total_len >= 8 is never
checked. -/
theorem c4_section_bounds_check (data : List Nat) (fields : List FaultField)
    (set : MsgSet) (fuel idx ty slen mg : Nat)
    (h1 : idx < data.length) (h2 : ¬ idx + 8 > data.length)
    (hmg : getData data false idx 4 = LinRes.ok mg)
    (hty : magicToType mg = some ty)
    (hsl : getData data false (idx + 4) 4 = LinRes.ok slen)
    (hover : idx + slen > data.length) :
    processDataFuel data fields set (fuel + 1) idx = ([], Outcome.truncated idx) := by
  rw [processDataFuel, if_neg (show ¬ idx ≥ data.length by omega), if_neg h2]
  simp only [hmg, hty, hsl]
  rw [if_pos hover]

/-- Blob with a recognized trailer magic declaring total_len = 100 on an
8-byte blob. -/
def c4wblob : List Nat := [0x01, 0x00, 0xda, 0xc0, 0x64, 0x00, 0x00, 0x00]

/-- Witness for c4_section_bounds_check on c4wblob. -/
theorem c4_section_bounds_check_witness :
    (getData c4wblob false 0 4 = LinRes.ok 0xc0da0001 ∧
        getData c4wblob false 4 4 = LinRes.ok 100 ∧ 0 + 100 > c4wblob.length) ∧
      processDataFuel c4wblob [] mset0 1 0 = ([], Outcome.truncated 0) :=
  ⟨by decide, c4_section_bounds_check c4wblob [] mset0 0 0 2 100 0xc0da0001
    (by decide) (by decide) (by decide) (by decide) (by decide) (by decide)⟩

/-- C5 counterexample: the framing loop does not terminate for every
blob.  On a blob holding a recognized trailer section with total_len 0
the offset never advances, so every fuel bound is exhausted: the loop
runs forever, consuming nothing and reporting nothing. -/
theorem c5_counterexample_zero_length_loops : processDataLoopsForever := by
  intro f
  induction f with
  | zero => rfl
  | succ f ih =>
    have step : processDataFuel c5loopBlob [] mset0 (f + 1) 0 =
        (Event.trailer 0 0 :: (processDataFuel c5loopBlob [] mset0 f 0).1,
          (processDataFuel c5loopBlob [] mset0 f 0).2) := rfl
    rw [step]
    exact ih

/-- C5 (amended): on every TERMINATING run started at offset 0 the
claim's equivalence holds — completing without error means the final
offset equals the blob length (full consumption), and every error
outcome is reported at an offset strictly below the blob length
(partial consumption).  Termination itself can fail (see the
counterexample), and an uncaught exception (crashed / unboundLocal)
also aborts mid-blob. -/
theorem c5_full_consumption (data : List Nat) (fields : List FaultField)
    (set : MsgSet) :
    ∀ fuel idx evs out, idx ≤ data.length →
      processDataFuel data fields set fuel idx = (evs, out) →
      (∀ n, out = Outcome.ok n → n = data.length) ∧
      (∀ i, out = Outcome.insufficientHeader i ∨ out = Outcome.truncated i ∨
          out = Outcome.unboundLocal i ∨ out = Outcome.crashed i →
        i < data.length) := by
  intro fuel
  induction fuel with
  | zero =>
    intro idx evs out hle hres
    rw [processDataFuel] at hres
    have ho : Outcome.fuelOut idx = out := congrArg Prod.snd hres
    constructor
    · intro n hn; rw [← ho] at hn; simp at hn
    · intro i hi; rw [← ho] at hi; rcases hi with h | h | h | h <;> simp at h
  | succ fuel ih =>
    intro idx evs out hle hres
    have hrec : ∀ j, j ≤ data.length →
        (∀ n, (processDataFuel data fields set fuel j).2 = Outcome.ok n →
          n = data.length) ∧
        (∀ i, (processDataFuel data fields set fuel j).2 = Outcome.insufficientHeader i ∨
            (processDataFuel data fields set fuel j).2 = Outcome.truncated i ∨
            (processDataFuel data fields set fuel j).2 = Outcome.unboundLocal i ∨
            (processDataFuel data fields set fuel j).2 = Outcome.crashed i →
          i < data.length) := by
      intro j hj
      exact ih j (processDataFuel data fields set fuel j).1
        (processDataFuel data fields set fuel j).2 hj rfl
    rw [processDataFuel] at hres
    by_cases hend : idx ≥ data.length
    · rw [if_pos hend] at hres
      have ho : Outcome.ok idx = out := congrArg Prod.snd hres
      constructor
      · intro n hn; rw [← ho] at hn; injection hn with h; omega
      · intro i hi; rw [← ho] at hi; rcases hi with h | h | h | h <;> simp at h
    · rw [if_neg hend] at hres
      by_cases hh : idx + 8 > data.length
      · rw [if_pos hh] at hres
        have ho : Outcome.insufficientHeader idx = out := congrArg Prod.snd hres
        constructor
        · intro n hn; rw [← ho] at hn; simp at hn
        · intro i hi; rw [← ho] at hi
          rcases hi with h | h | h | h
          · injection h with h2; omega
          · simp at h
          · simp at h
          · simp at h
      · rw [if_neg hh] at hres
        cases hmg : getData data false idx 4 with
        | eof =>
          simp only [hmg] at hres
          have ho : Outcome.crashed idx = out := congrArg Prod.snd hres
          constructor
          · intro n hn; rw [← ho] at hn; simp at hn
          · intro i hi; rw [← ho] at hi
            rcases hi with h | h | h | h
            · simp at h
            · simp at h
            · simp at h
            · injection h with h2; omega
        | ok mg =>
          simp only [hmg] at hres
          cases hty : magicToType mg with
          | none =>
            simp only [hty] at hres
            have ho : Outcome.unboundLocal idx = out := congrArg Prod.snd hres
            constructor
            · intro n hn; rw [← ho] at hn; simp at hn
            · intro i hi; rw [← ho] at hi
              rcases hi with h | h | h | h
              · simp at h
              · simp at h
              · injection h with h2; omega
              · simp at h
          | some ty =>
            simp only [hty] at hres
            cases hsl : getData data false (idx + 4) 4 with
            | eof =>
              simp only [hsl] at hres
              have ho : Outcome.crashed idx = out := congrArg Prod.snd hres
              constructor
              · intro n hn; rw [← ho] at hn; simp at hn
              · intro i hi; rw [← ho] at hi
                rcases hi with h | h | h | h
                · simp at h
                · simp at h
                · simp at h
                · injection h with h2; omega
            | ok slen =>
              simp only [hsl] at hres
              by_cases hov : idx + slen > data.length
              · rw [if_pos hov] at hres
                have ho : Outcome.truncated idx = out := congrArg Prod.snd hres
                constructor
                · intro n hn; rw [← ho] at hn; simp at hn
                · intro i hi; rw [← ho] at hi
                  rcases hi with h | h | h | h
                  · simp at h
                  · injection h with h2; omega
                  · simp at h
                  · simp at h
              · rw [if_neg hov] at hres
                by_cases hty0 : ty = 0
                · rw [if_pos hty0] at hres
                  cases hfp : faultPretty data fields idx with
                  | eof =>
                    simp only [hfp] at hres
                    have ho : Outcome.crashed idx = out := congrArg Prod.snd hres
                    constructor
                    · intro n hn; rw [← ho] at hn; simp at hn
                    · intro i hi; rw [← ho] at hi
                      rcases hi with h | h | h | h
                      · simp at h
                      · simp at h
                      · simp at h
                      · injection h with h2; omega
                  | ok vs =>
                    simp only [hfp] at hres
                    have ho : (processDataFuel data fields set fuel (idx + slen)).2 = out :=
                      congrArg Prod.snd hres
                    have h := hrec (idx + slen) (by omega)
                    exact ⟨fun n hn => h.1 n (ho.trans hn),
                      fun i hi => h.2 i (by rw [← ho] at hi; exact hi)⟩
                · rw [if_neg hty0] at hres
                  by_cases hty1 : ty = 1
                  · rw [if_pos hty1] at hres
                    by_cases hcr : lwlStatusCrashes (lwlPretty set data idx slen).2
                    · rw [if_pos hcr] at hres
                      have ho : Outcome.crashed idx = out := congrArg Prod.snd hres
                      constructor
                      · intro n hn; rw [← ho] at hn; simp at hn
                      · intro i hi; rw [← ho] at hi
                        rcases hi with h | h | h | h
                        · simp at h
                        · simp at h
                        · simp at h
                        · injection h with h2; omega
                    · rw [if_neg hcr] at hres
                      by_cases hfo : lwlStatusFuelOut (lwlPretty set data idx slen).2
                      · rw [if_pos hfo] at hres
                        have ho : Outcome.fuelOut idx = out := congrArg Prod.snd hres
                        constructor
                        · intro n hn; rw [← ho] at hn; simp at hn
                        · intro i hi; rw [← ho] at hi
                          rcases hi with h | h | h | h <;> simp at h
                      · rw [if_neg hfo] at hres
                        have ho : (processDataFuel data fields set fuel (idx + slen)).2 = out :=
                          congrArg Prod.snd hres
                        have h := hrec (idx + slen) (by omega)
                        exact ⟨fun n hn => h.1 n (ho.trans hn),
                          fun i hi => h.2 i (by rw [← ho] at hi; exact hi)⟩
                  · rw [if_neg hty1] at hres
                    have ho : (processDataFuel data fields set fuel (idx + slen)).2 = out :=
                      congrArg Prod.snd hres
                    have h := hrec (idx + slen) (by omega)
                    exact ⟨fun n hn => h.1 n (ho.trans hn),
                      fun i hi => h.2 i (by rw [← ho] at hi; exact hi)⟩

/-- Witness for c5_full_consumption: a well-formed single-trailer blob
completes with .ok 8, and 8 is indeed the blob length. -/
theorem c5_full_consumption_witness :
    processDataFuel c5okBlob [] mset0 3 0 = ([Event.trailer 0 8], Outcome.ok 8) ∧
      (8 : Nat) = c5okBlob.length :=
  ⟨by decide,
    (c5_full_consumption c5okBlob [] mset0 3 0 [Event.trailer 0 8] (Outcome.ok 8)
      (by decide) (by decide)).1 8 rfl⟩

lemma find?_append_self (l : List (Nat × Msg)) (id : Nat) (m : Msg)
    (h : l.find? (fun p => p.1 == id) = none) :
    (l ++ [(id, m)]).find? (fun p => p.1 == id) = some (id, m) := by
  induction l with
  | nil => simp [List.find?]
  | cons p l ih =>
    cases hp : (p.1 == id) with
    | true =>
      simp only [List.find?, hp] at h
      cases h
    | false =>
      simp only [List.find?, hp] at h
      rw [List.cons_append]
      simp only [List.find?, hp]
      exact ih h

/-- C9 counterexample: in lwl.py a descriptor whose format has one
conversion slot but an empty arg-widths string is REJECTED at
insertion: parse_source_file charges an error, skips add_lwl_msg, and
the id stays absent from the catalog (so it is not decodable), contrary
to the claimed warning-only handling. -/
theorem c9_counterexample_mismatch_rejected :
    lwlHandleStatement mset0 7 ['%', 'd'] [] = (mset0, 1) ∧
      getMetadata (lwlHandleStatement mset0 7 ['%', 'd'] []).1 7 = none := by
  decide

/-- C9 (amended): the two generations disagree.  lwl.py treats a
slot-count / arg-widths-length mismatch as fatal to the entry — the
catalog is left unchanged and an error is charged.  logfmt.py performs
no slot-count check at all at insertion (its get_num_fmt_params is
never called): the entry is always added, with arg_widths kept as
supplied — so there arg_widths does remain the authoritative byte
source — regardless of the display format. -/
theorem c9_mismatch_handling (s : MsgSet) (id : Nat) (fmt : List Char)
    (argBytes : List Nat) (declared : Nat)
    (hmis : getNumFmtParams fmt ≠ argBytes.length)
    (hfresh : getMetadata s id = none) :
    lwlHandleStatement s id fmt argBytes = (s, 1) ∧
      getMetadata (logfmtHandleStatement s id fmt argBytes declared).1 id =
        some ⟨fmt, argBytes⟩ := by
  constructor
  · unfold lwlHandleStatement
    rw [if_pos hmis]
  · unfold logfmtHandleStatement addLwlMsg
    simp only [hfresh]
    unfold getMetadata
    have hl : s.msgs.find? (fun p => p.1 == id) = none := by
      unfold getMetadata at hfresh
      exact Option.map_eq_none.mp hfresh
    rw [find?_append_self s.msgs id ⟨fmt, argBytes⟩ hl]
    rfl

/-- Witness for c9_mismatch_handling with format percent-d and no
argument widths. -/
theorem c9_mismatch_handling_witness :
    (getNumFmtParams ['%', 'd'] ≠ ([] : List Nat).length ∧
        getMetadata mset0 3 = none) ∧
      (lwlHandleStatement mset0 3 ['%', 'd'] [] = (mset0, 1) ∧
        getMetadata (logfmtHandleStatement mset0 3 ['%', 'd'] [] 0).1 3 =
          some ⟨['%', 'd'], []⟩) :=
  ⟨by decide, c9_mismatch_handling mset0 3 ['%', 'd'] [] 0 (by decide) (by decide)⟩

/-- C10: an LWL section with total section length below 20 bytes is
rejected by the log-section decoder before its header is even read —
regardless of whether the buf_len / put_idx header checks would pass —
it yields no decoded messages, and the framer carries on with the next
section (the rejection result is not fatal to the blob). -/
theorem c10_short_lwl_section_rejected (set : MsgSet) (data : List Nat)
    (off slen : Nat) (hs : slen < 20) :
    lwlPretty set data off slen = ([], LwlStatus.insufficientSize) ∧
    ∀ (fields : List FaultField) (fuel : Nat),
      ¬ off + 8 > data.length →
      getData data false off 4 = LinRes.ok 0xf00d0001 →
      getData data false (off + 4) 4 = LinRes.ok slen →
      ¬ off + slen > data.length →
      processDataFuel data fields set (fuel + 1) off =
        (Event.lwl off slen ([], LwlStatus.insufficientSize) ::
          (processDataFuel data fields set fuel (off + slen)).1,
         (processDataFuel data fields set fuel (off + slen)).2) := by
  have hp : lwlPretty set data off slen = ([], .insufficientSize) := by
    unfold lwlPretty
    rw [if_pos hs]
  refine ⟨hp, ?_⟩
  intro fields fuel h2 hmg hsl h3
  have hmt : magicToType 0xf00d0001 = some 1 := by decide
  rw [processDataFuel, if_neg (show ¬ off ≥ data.length by omega), if_neg h2]
  simp only [hmg, hmt, hsl]
  rw [if_neg h3]
  simp [hp, lwlStatusCrashes, lwlStatusFuelOut]

/-- Witness for c10_short_lwl_section_rejected on c10blob: the 19-byte
LWL section (whose header fields are self-consistent: buf_len 3 fits and
put_idx 0 is in range) is rejected with no lines, and the trailer behind
it is still processed, the blob completing cleanly. -/
theorem c10_short_lwl_section_rejected_witness :
    ((19 : Nat) < 20) ∧
      (lwlPretty mset0 c10blob 0 19 = ([], LwlStatus.insufficientSize) ∧
        processDataFuel c10blob [] mset0 3 0 =
          ([Event.lwl 0 19 ([], LwlStatus.insufficientSize), Event.trailer 19 8],
            Outcome.ok 27)) := by
  refine ⟨by decide, ?_⟩
  have h := c10_short_lwl_section_rejected mset0 c10blob 0 19 (by decide)
  refine ⟨h.1, ?_⟩
  have h2 := h.2 [] 2 (by decide) (by decide) (by decide) (by decide)
  rw [h2]
  decide

/-- C3 counterexample: the standalone lwl tool runs only W trials
(offsets 0..W-1, from range(max_msg_len)), not the claimed W+1.  With
catalog {1 : one 1-byte argument} (W = 2) and buffer 07 07 01 05 with
put_idx 0, the three claimed trials have invalid-id counts 2, 1, 0 at
offsets 0, 1, 2: the minimum is at offset 2, so the claim requires
start index 2.  lwl.py never tests offset 2 and returns start index 1
instead. -/
theorem c3_counterexample_lwl_trial_range :
    lwlGetOptimalStartIdx [7, 7, 1, 5] 0 catC3 = ResyncRes.ok (some 1) ∧
      lwlTrialLoop [7, 7, 1, 5] 0 catC3 6 0 true 0 = TrialRes.count 2 ∧
      lwlTrialLoop [7, 7, 1, 5] 0 catC3 6 1 true 0 = TrialRes.count 1 ∧
      lwlTrialLoop [7, 7, 1, 5] 0 catC3 6 2 true 0 = TrialRes.count 0 ∧
      some (1 : Nat) ≠ some (2 : Nat) := by
  decide

lemma minOf_le_init (l : List Nat) (d : Nat) : minOf l d ≤ d := by
  induction l with
  | nil => exact Nat.le_refl d
  | cons x l ih =>
    have : minOf (x :: l) d = Nat.min x (minOf l d) := rfl
    rw [this]
    exact Nat.le_trans (Nat.min_le_right _ _) ih

lemma minOf_le_mem (l : List Nat) (d : Nat) : ∀ x ∈ l, minOf l d ≤ x := by
  induction l with
  | nil => intro x hx; cases hx
  | cons y l ih =>
    intro x hx
    have hc : minOf (y :: l) d = Nat.min y (minOf l d) := rfl
    rcases List.mem_cons.mp hx with h | h
    · subst h
      rw [hc]
      exact Nat.min_le_left _ _
    · rw [hc]
      exact Nat.le_trans (Nat.min_le_right _ _) (ih x h)

lemma natMin_def (a b : Nat) : Nat.min a b = if a ≤ b then a else b := rfl

lemma minOf_mem_or_init (l : List Nat) (d : Nat) :
    minOf l d = d ∨ minOf l d ∈ l := by
  induction l with
  | nil => exact Or.inl rfl
  | cons x l ih =>
    have hc : minOf (x :: l) d = Nat.min x (minOf l d) := rfl
    rcases Nat.le_total x (minOf l d) with h | h
    · right
      rw [hc, show Nat.min x (minOf l d) = x by rw [natMin_def]; exact if_pos h]
      exact List.mem_cons_self x l
    · rw [hc, show Nat.min x (minOf l d) = minOf l d by
        rw [natMin_def]; split <;> omega]
      rcases ih with h2 | h2
      · exact Or.inl h2
      · exact Or.inr (List.mem_cons_of_mem x h2)

lemma minOf_init_min (l : List Nat) {a b : Nat} (h : a ≤ b) :
    minOf l a = Nat.min a (minOf l b) := by
  induction l with
  | nil =>
    show a = Nat.min a b
    rw [natMin_def]
    split <;> omega
  | cons x l ih =>
    show Nat.min x (minOf l a) = Nat.min a (Nat.min x (minOf l b))
    rw [ih]
    simp only [natMin_def]
    split_ifs <;> omega

lemma circList_succ_len (data : List Nat) (bufStart L s r : Nat) :
    circList data bufStart L s (r + 1) =
      data.getD (bufStart + s) 0 :: circList data bufStart L (circSucc L s) r := rfl

lemma circDist_succ_self {L put : Nat} (hput : put < L) :
    circDist L put (circSucc L put) = L - 1 := by
  simp only [circDist, circSucc]
  split_ifs <;> omega

lemma trialLoopL_eq_walk (data : List Nat) (bufStart L put : Nat) (set : MsgSet)
    (hput : put < L) :
    ∀ d fuel idx ctr, idx < L → circDist L put idx = d → d + 1 ≤ fuel →
      trialLoopL data bufStart L put set fuel idx false ctr =
        TrialRes.count (ctr + walkTrial set (circList data bufStart L idx d)) := by
  intro d
  induction d using Nat.strong_induction_on with
  | _ d ih =>
    intro fuel idx ctr hi hd hfuel
    cases fuel with
    | zero => omega
    | succ fuel =>
      rcases Nat.eq_zero_or_pos d with hd0 | hdpos
      · subst hd0
        have hidx : idx = put := (circDist_eq_zero_iff hi).mp hd
        subst hidx
        rw [trialLoopL, getDataCirc_one_eof data bufStart L idx hput]
        simp [circList, walkTrial, walkGo]
      · have hne : idx ≠ put := by
          intro h
          rw [h, circDist_self] at hd
          omega
        have hread := getDataCirc_one data bufStart L put idx false hput hi (Or.inr hne)
        have hsucc := circSucc_lt (L := L) (by omega) idx
        have hdsucc : circDist L put (circSucc L idx) = d - 1 := by
          rw [circDist_succ hput hi hne, hd]
        have hcl : circList data bufStart L idx d =
            data.getD (bufStart + idx) 0 ::
              circList data bufStart L (circSucc L idx) (d - 1) := by
          have := circList_succ_len data bufStart L idx (d - 1)
          rw [Nat.sub_add_cancel hdpos] at this
          exact this
        rw [trialLoopL]
        simp only [hread]
        cases hmeta : getMetadata set (data.getD (bufStart + idx) 0) with
        | none =>
          simp only [hmeta]
          rw [ih (d - 1) (by omega) fuel (circSucc L idx) (ctr + 1) hsucc hdsucc
            (by omega)]
          rw [hcl, walkTrial_cons_none set _ _ hmeta]
          congr 1
          omega
        | some m =>
          simp only [hmeta]
          have hbl : getBytesLeftCirc (circSucc L idx) m.numArgBytes L put false =
              .ok (Nat.min m.numArgBytes (d - 1))
                (circAdvance L (circSucc L idx) (Nat.min m.numArgBytes (d - 1))) := by
            unfold getBytesLeftCirc
            rw [if_neg (by omega), if_neg (by omega)]
            rw [getBytesLeftCircGo_false L put hput m.numArgBytes (circSucc L idx) 0
              hsucc, hdsucc]
            simp
          simp only [hbl]
          rw [hcl, walkTrial_cons_some set _ _ m hmeta]
          have hlen : (circList data bufStart L (circSucc L idx) (d - 1)).length =
              d - 1 := circList_length data bufStart L (d - 1) (circSucc L idx)
          by_cases hin : d - 1 < m.numArgBytes
          · rw [if_pos (Nat.lt_of_le_of_lt (Nat.min_le_right _ _) hin)]
            rw [if_pos (by rw [hlen]; exact hin)]
            simp
          · have hmin : Nat.min m.numArgBytes (d - 1) = m.numArgBytes := by
              rw [natMin_def]
              split <;> omega
            rw [hmin]
            rw [if_neg (by omega)]
            rw [if_neg (by rw [hlen]; omega)]
            have hadv := circAdvance_dist hput m.numArgBytes (circSucc L idx) hsucc
              (by omega)
            rw [ih (d - 1 - m.numArgBytes) (by omega) fuel
              (circAdvance L (circSucc L idx) m.numArgBytes) ctr hadv.1
              (by rw [hadv.2, hdsucc]) (by omega)]
            rw [circList_drop]

lemma trialLoopL_offset_zero (data : List Nat) (bufStart L put : Nat)
    (set : MsgSet) (hput : put < L) (fuel : Nat) (hfuel : L + 1 ≤ fuel) :
    trialLoopL data bufStart L put set fuel put true 0 =
      TrialRes.count (walkTrial set (circList data bufStart L put L)) := by
  cases fuel with
  | zero => omega
  | succ fuel =>
    have hL : 0 < L := by omega
    have hread := getDataCirc_one data bufStart L put put true hput hput (Or.inl rfl)
    have hsucc := circSucc_lt hL put
    have hdsucc : circDist L put (circSucc L put) = L - 1 := circDist_succ_self hput
    have hcl : circList data bufStart L put L =
        data.getD (bufStart + put) 0 ::
          circList data bufStart L (circSucc L put) (L - 1) := by
      have := circList_succ_len data bufStart L put (L - 1)
      rw [Nat.sub_add_cancel hL] at this
      exact this
    rw [trialLoopL]
    simp only [hread]
    cases hmeta : getMetadata set (data.getD (bufStart + put) 0) with
    | none =>
      simp only [hmeta]
      rw [trialLoopL_eq_walk data bufStart L put set hput (L - 1) fuel (circSucc L put)
        1 hsucc hdsucc (by omega)]
      rw [hcl, walkTrial_cons_none set _ _ hmeta]
      congr 1
      omega
    | some m =>
      simp only [hmeta]
      have hbl : getBytesLeftCirc (circSucc L put) m.numArgBytes L put false =
          .ok (Nat.min m.numArgBytes (L - 1))
            (circAdvance L (circSucc L put) (Nat.min m.numArgBytes (L - 1))) := by
        unfold getBytesLeftCirc
        rw [if_neg (by omega), if_neg (by omega)]
        rw [getBytesLeftCircGo_false L put hput m.numArgBytes (circSucc L put) 0
          hsucc, hdsucc]
        simp
      simp only [hbl]
      rw [hcl, walkTrial_cons_some set _ _ m hmeta]
      have hlen : (circList data bufStart L (circSucc L put) (L - 1)).length = L - 1 :=
        circList_length data bufStart L (L - 1) (circSucc L put)
      by_cases hin : L - 1 < m.numArgBytes
      · rw [if_pos (Nat.lt_of_le_of_lt (Nat.min_le_right _ _) hin)]
        rw [if_pos (by rw [hlen]; exact hin)]
      · have hmin : Nat.min m.numArgBytes (L - 1) = m.numArgBytes := by
          rw [natMin_def]
          split <;> omega
        rw [hmin]
        rw [if_neg (by omega)]
        rw [if_neg (by rw [hlen]; omega)]
        have hadv := circAdvance_dist hput m.numArgBytes (circSucc L put) hsucc
          (by omega)
        rw [trialLoopL_eq_walk data bufStart L put set hput (L - 1 - m.numArgBytes)
          fuel (circAdvance L (circSucc L put) m.numArgBytes) 0 hadv.1
          (by rw [hadv.2, hdsucc]) (by omega)]
        rw [circList_drop]
        simp

lemma codeStart_eq_mod {L put t : Nat} (hL : 0 < L) (h : put + t < 2 * L) :
    codeStart L put t = (put + t) % L := by
  unfold codeStart
  split
  · rw [Nat.mod_eq_sub_mod (by omega), Nat.mod_eq_of_lt (by omega)]
  · rw [Nat.mod_eq_of_lt (by omega)]

lemma codeStart_lt {L put t : Nat} (hput : put < L) (h : put + t < 2 * L) :
    codeStart L put t < L := by
  unfold codeStart
  split <;> omega

lemma trial_count_correct (data : List Nat) (bufStart L put : Nat) (set : MsgSet)
    (hput : put < L) (t : Nat) (ht : put + t < 2 * L) :
    trialLoopL data bufStart L put set (L + 2) (codeStart L put t)
        (decide (t = 0)) 0 =
      TrialRes.count (trialSpecCount data bufStart L put set t) := by
  by_cases ht0 : t = 0
  · subst ht0
    have hcs : codeStart L put 0 = put := by
      unfold codeStart
      split <;> omega
    rw [hcs, show (decide ((0 : Nat) = 0)) = true from rfl]
    rw [trialLoopL_offset_zero data bufStart L put set hput (L + 2) (by omega)]
    unfold trialSpecCount trialSpecWindow
    rw [if_pos rfl]
  · have hlt := codeStart_lt hput ht
    rw [show (decide (t = 0)) = false by simp [ht0]]
    rw [trialLoopL_eq_walk data bufStart L put set hput
      (circDist L put (codeStart L put t)) (L + 2) (codeStart L put t) 0 hlt rfl
      (by have := circDist_lt hput hlt; omega)]
    unfold trialSpecCount trialSpecWindow
    rw [if_neg ht0, codeStart_eq_mod (by omega) ht]
    simp

lemma gosi_eq_selFold (data : List Nat) (bufStart L put : Nat) (set : MsgSet)
    (hput : put < L) :
    ∀ (ts : List Nat) (bc : Nat) (b : Option Nat),
      (∀ t ∈ ts, put + t < 2 * L) →
      gosi data bufStart L put set ts bc b =
        ResyncRes.ok (selFold (ts.map (fun t => (codeStart L put t,
          trialSpecCount data bufStart L put set t))) bc b) := by
  intro ts
  induction ts with
  | nil => intro bc b _; rfl
  | cons t ts ih =>
    intro bc b hall
    rw [gosi]
    simp only [trial_count_correct data bufStart L put set hput t (hall t (by simp))]
    rw [List.map_cons, selFold]
    by_cases hlt : trialSpecCount data bufStart L put set t < bc
    · rw [if_pos hlt, if_pos hlt]
      exact ih _ _ (fun u hu => hall u (by simp [hu]))
    · rw [if_neg hlt, if_neg hlt]
      exact ih _ _ (fun u hu => hall u (by simp [hu]))

lemma find?_map_pairs (f : Nat → Nat × Nat) (pred : Nat × Nat → Bool) :
    ∀ ts : List Nat,
      (ts.map f).find? pred = (ts.find? (fun t => pred (f t))).map f := by
  intro ts
  induction ts with
  | nil => rfl
  | cons t ts ih =>
    simp only [List.map_cons, List.find?]
    cases h : pred (f t) with
    | true => rfl
    | false => exact ih

lemma selFold_spec :
    ∀ (ps : List (Nat × Nat)) (bc : Nat) (b : Option Nat),
      (minOf (ps.map Prod.snd) bc < bc →
        ∃ p, ps.find? (fun q => q.2 == minOf (ps.map Prod.snd) bc) = some p ∧
          selFold ps bc b = some p.1) ∧
      (¬ minOf (ps.map Prod.snd) bc < bc → selFold ps bc b = b) := by
  intro ps
  induction ps with
  | nil =>
    intro bc b
    constructor
    · intro h
      exact absurd h (Nat.lt_irrefl bc)
    · intro _
      rfl
  | cons p ps ih =>
    intro bc b
    obtain ⟨s, c⟩ := p
    have hM : minOf (((s, c) :: ps).map Prod.snd) bc =
        Nat.min c (minOf (ps.map Prod.snd) bc) := rfl
    constructor
    · intro h
      by_cases hc : c < bc
      · have hRc : minOf (ps.map Prod.snd) c =
            Nat.min c (minOf (ps.map Prod.snd) bc) :=
          minOf_init_min (ps.map Prod.snd) (Nat.le_of_lt hc)
        by_cases hrc : minOf (ps.map Prod.snd) c < c
        · obtain ⟨q, hfind, hsel⟩ := (ih c (some s)).1 hrc
          refine ⟨q, ?_, ?_⟩
          · rw [hM, ← hRc]
            simp only [List.find?]
            rw [show (c == minOf (ps.map Prod.snd) c) = false by
              simp only [beq_eq_false_iff_ne, ne_eq]
              omega]
            exact hfind
          · rw [selFold, if_pos hc]
            exact hsel
        · have hcR : Nat.min c (minOf (ps.map Prod.snd) bc) = c := by
            rw [hRc] at hrc
            rw [natMin_def] at hrc ⊢
            split at hrc <;> split <;> omega
          refine ⟨(s, c), ?_, ?_⟩
          · rw [hM, hcR]
            simp only [List.find?]
            rw [show (c == c) = true by simp]
          · rw [selFold, if_pos hc]
            exact (ih c (some s)).2 hrc
      · have hR : minOf (ps.map Prod.snd) bc < bc := by
          rw [hM, natMin_def] at h
          split at h <;> omega
        have hMR : Nat.min c (minOf (ps.map Prod.snd) bc) =
            minOf (ps.map Prod.snd) bc := by
          rw [natMin_def]
          split <;> omega
        obtain ⟨q, hfind, hsel⟩ := (ih bc b).1 hR
        refine ⟨q, ?_, ?_⟩
        · rw [hM, hMR]
          simp only [List.find?]
          rw [show (c == minOf (ps.map Prod.snd) bc) = false by
            simp only [beq_eq_false_iff_ne, ne_eq]
            omega]
          exact hfind
        · rw [selFold, if_neg hc]
          exact hsel
    · intro h
      rw [hM, natMin_def] at h
      have hc : ¬ c < bc := by
        split at h <;> omega
      have hR : ¬ minOf (ps.map Prod.snd) bc < bc := by
        split at h <;> omega
      rw [selFold, if_neg hc]
      exact (ih bc b).2 hR

/-- C3 (amended): the fault tool's resynchronization does run one trial
per offset t in [0, W] inclusive (W + 1 trials) and — provided the
catalog is nonempty (W >= 1) and put_idx + W < 2 * buf_len, so that the
code's single conditional subtraction agrees with the claimed reduction
modulo buf_len — it returns exactly the start index
(put_idx + t) mod buf_len of the trial with the minimum invalid-id
count, ties resolved to the smallest offset tested.  (The standalone
lwl tool runs only W trials, offsets [0, W-1]: see the
counterexample.) -/
theorem c3_resync_selection (data : List Nat) (bufStart L put : Nat) (set : MsgSet)
    (hput : put < L) (hW : 1 ≤ set.maxMsgLen) (hwrap : put + set.maxMsgLen < 2 * L) :
    getOptimalStartIdxL data bufStart L put set =
      ResyncRes.ok (resyncSpecChoice data bufStart L put set) := by
  have hL : 0 < L := by omega
  have hall : ∀ t ∈ List.range (set.maxMsgLen + 1), put + t < 2 * L := by
    intro t ht
    rw [List.mem_range] at ht
    omega
  unfold getOptimalStartIdxL
  rw [gosi_eq_selFold data bufStart L put set hput (List.range (set.maxMsgLen + 1))
    L none hall]
  congr 1
  have hmap : ((List.range (set.maxMsgLen + 1)).map
      (fun t => (codeStart L put t,
        trialSpecCount data bufStart L put set t))).map Prod.snd =
      (List.range (set.maxMsgLen + 1)).map
        (fun t => trialSpecCount data bufStart L put set t) := by
    rw [List.map_map]
    rfl
  have h1mem : (1 : Nat) ∈ List.range (set.maxMsgLen + 1) :=
    List.mem_range.mpr (by omega)
  have hcnt1 : trialSpecCount data bufStart L put set 1 < L := by
    unfold trialSpecCount trialSpecWindow
    rw [if_neg (by omega : ¬ (1 : Nat) = 0)]
    have hmlt : (put + 1) % L < L := Nat.mod_lt _ hL
    have h1 := walkTrial_le set
      (circList data bufStart L ((put + 1) % L) (circDist L put ((put + 1) % L)))
    rw [circList_length] at h1
    exact Nat.lt_of_le_of_lt h1 (circDist_lt hput hmlt)
  have hminlt : minOf ((List.range (set.maxMsgLen + 1)).map
      (fun t => trialSpecCount data bufStart L put set t)) L < L := by
    have hmem : trialSpecCount data bufStart L put set 1 ∈
        (List.range (set.maxMsgLen + 1)).map
          (fun t => trialSpecCount data bufStart L put set t) :=
      List.mem_map.mpr ⟨1, h1mem, rfl⟩
    exact Nat.lt_of_le_of_lt (minOf_le_mem _ L _ hmem) hcnt1
  obtain ⟨p, hfind, hsel⟩ := (selFold_spec ((List.range (set.maxMsgLen + 1)).map
    (fun t => (codeStart L put t, trialSpecCount data bufStart L put set t)))
    L none).1 (by rw [hmap]; exact hminlt)
  rw [hsel]
  rw [hmap] at hfind
  have h0mem : trialSpecCount data bufStart L put set 0 ∈
      (List.range (set.maxMsgLen + 1)).map
        (fun t => trialSpecCount data bufStart L put set t) :=
    List.mem_map.mpr ⟨0, List.mem_range.mpr (by omega), rfl⟩
  have hmeq : minOf ((List.range (set.maxMsgLen + 1)).map
      (fun t => trialSpecCount data bufStart L put set t))
        (trialSpecCount data bufStart L put set 0) =
      minOf ((List.range (set.maxMsgLen + 1)).map
        (fun t => trialSpecCount data bufStart L put set t)) L := by
    apply Nat.le_antisymm
    · rcases minOf_mem_or_init ((List.range (set.maxMsgLen + 1)).map
        (fun t => trialSpecCount data bufStart L put set t)) L with h | h
      · exfalso
        rw [h] at hminlt
        omega
      · exact minOf_le_mem _ _ _ h
    · rcases minOf_mem_or_init ((List.range (set.maxMsgLen + 1)).map
        (fun t => trialSpecCount data bufStart L put set t))
        (trialSpecCount data bufStart L put set 0) with h | h
      · rw [h]
        exact minOf_le_mem _ _ _ h0mem
      · exact minOf_le_mem _ _ _ h
  rw [find?_map_pairs] at hfind
  simp only [] at hfind
  cases hx : (List.range (set.maxMsgLen + 1)).find?
      (fun t => trialSpecCount data bufStart L put set t ==
        minOf ((List.range (set.maxMsgLen + 1)).map
          (fun u => trialSpecCount data bufStart L put set u)) L) with
  | none =>
    rw [hx] at hfind
    simp at hfind
  | some t0 =>
    rw [hx] at hfind
    simp only [Option.map_some'] at hfind
    have hp : (codeStart L put t0, trialSpecCount data bufStart L put set t0) = p :=
      Option.some.inj hfind
    have ht0mem := List.mem_of_find?_eq_some hx
    have ht0le : t0 ≤ set.maxMsgLen := by
      rw [List.mem_range] at ht0mem
      omega
    unfold resyncSpecChoice
    simp only []
    rw [hmeq, hx]
    rw [← hp]
    simp only []
    rw [codeStart_eq_mod hL (by omega)]

/-- Witness for c3_resync_selection: buffer 01 01 01 01, put index 1,
catalog {1 : one 1-byte argument} (W = 2).  Both the code and the
specification formula pick start index 1 (offset 0, count 0). -/
theorem c3_resync_selection_witness :
    ((1 : Nat) < 4 ∧ 1 ≤ catC3.maxMsgLen ∧ 1 + catC3.maxMsgLen < 2 * 4 ∧
        resyncSpecChoice [1, 1, 1, 1] 0 4 1 catC3 = some 1) ∧
      getOptimalStartIdxL [1, 1, 1, 1] 0 4 1 catC3 =
        ResyncRes.ok (resyncSpecChoice [1, 1, 1, 1] 0 4 1 catC3) :=
  ⟨by decide, c3_resync_selection [1, 1, 1, 1] 0 4 1 catC3 (by decide) (by decide)
    (by decide)⟩
